import Mathlib

/-
  Verification of the messaging and scheduling core of the simulec repository.

  Shallow embedding of:
    - event_interface.py   (AbstractEvent: ordering, cancellation)
    - priority_queue.py    (PriorityQueue over the Python heapq algorithms)
    - communication_port.py (CommunicationPort: modes, readiness, send/receive)
    - discovery.py         (DiscoveryServer.receive, DiscoveryDelegate.connect_to_service)
    - exception_threading.py (ExceptionThread.run / join failure propagation)
    - service.py           (Service: modes, start, add_event, cancel/contains/get)

  Machine integers do not occur; Python datetime values are totally ordered and
  are modelled as Int timestamps.  Fallible Python code (raise) is modelled with
  Option/Except values carrying an explicit error constructor.
-/

set_option linter.unusedVariables false
set_option maxHeartbeats 1000000

namespace Simulec

/-! ### AbstractEvent (event_interface.py)

An event carries a date_time (the only field that takes part in comparisons),
a cancelled flag, and further object state (payload identity), modelled by the
field eid, which comparisons must ignore. -/

structure AbstractEvent where
  date_time : Int
  eid : Nat
  cancelled : Bool
deriving DecidableEq, Repr

instance : Inhabited AbstractEvent := ⟨⟨0, 0, false⟩⟩

/-- Embeds AbstractEvent.__eq__ (event_interface.py lines 51-64): comparison on date_time only. -/
def eventEq (a b : AbstractEvent) : Bool :=
  a.date_time == b.date_time

/-- Embeds AbstractEvent.__lt__ (event_interface.py lines 66-79): comparison on date_time only. -/
def eventLt (a b : AbstractEvent) : Bool :=
  decide (a.date_time < b.date_time)

/-- Embeds AbstractEvent.cancel (event_interface.py lines 92-94): sets the cancelled flag. -/
def AbstractEvent.cancel (e : AbstractEvent) : AbstractEvent :=
  { e with cancelled := true }

/-- Reading position i of a Python list (index known to be in range at every
use inside the algorithms; out of range the default event is returned). -/
def evAt (l : List AbstractEvent) (i : Nat) : AbstractEvent :=
  l.getD i default

/-! ### The Python heapq algorithms

priority_queue.py stores its events in a plain Python list manipulated through
heapq.heappush and heapq.heappop.  The following definitions are the reference
(pure Python) implementations of those library functions, translated to lists:

    def _siftdown(heap, startpos, pos):
        newitem = heap[pos]
        while pos > startpos:
            parentpos = (pos - 1) >> 1
            parent = heap[parentpos]
            if newitem < parent:
                heap[pos] = parent
                pos = parentpos
                continue
            break
        heap[pos] = newitem

The loop is rendered as recursion on pos; the current value of newitem is read
once at entry and threaded through unchanged, exactly as in the Python code. -/

def siftdown (heap : List AbstractEvent) (startpos pos : Nat)
    (newitem : AbstractEvent) : List AbstractEvent :=
  if h : startpos < pos then
    if eventLt newitem (evAt heap ((pos - 1) / 2)) then
      siftdown (heap.set pos (evAt heap ((pos - 1) / 2))) startpos ((pos - 1) / 2) newitem
    else
      heap.set pos newitem
  else
    heap.set pos newitem
termination_by pos
decreasing_by
  omega

/-
    def _siftup(heap, pos):
        endpos = len(heap)
        startpos = pos
        newitem = heap[pos]
        childpos = 2*pos + 1
        while childpos < endpos:
            rightpos = childpos + 1
            if rightpos < endpos and not heap[childpos] < heap[rightpos]:
                childpos = rightpos
            heap[pos] = heap[childpos]
            pos = childpos
            childpos = 2*pos + 1
        heap[pos] = newitem
        _siftdown(heap, startpos, pos)
-/

/-- The loop body of _siftup first selects the smaller child: childpos is moved
to rightpos when the right child exists and the left child is not smaller. -/
def siftupChild (heap : List AbstractEvent) (pos : Nat) : Nat :=
  if 2 * pos + 2 < heap.length &&
      !(eventLt (evAt heap (2 * pos + 1)) (evAt heap (2 * pos + 2))) then
    2 * pos + 2
  else
    2 * pos + 1

def siftup (heap : List AbstractEvent) (startpos pos : Nat)
    (newitem : AbstractEvent) : List AbstractEvent :=
  if h : 2 * pos + 1 < heap.length then
    siftup (heap.set pos (evAt heap (siftupChild heap pos))) startpos
      (siftupChild heap pos) newitem
  else
    siftdown (heap.set pos newitem) startpos pos newitem
termination_by heap.length - pos
decreasing_by
  simp only [List.length_set]
  simp only [siftupChild]
  split <;> omega

/-
    def heappush(heap, item):
        heap.append(item)
        _siftdown(heap, 0, len(heap)-1)
-/

def heappush (heap : List AbstractEvent) (item : AbstractEvent) : List AbstractEvent :=
  siftdown (heap ++ [item]) 0 heap.length item

/-
    def heappop(heap):
        lastelt = heap.pop()    # raises IndexError if heap is empty
        if heap:
            returnitem = heap[0]
            heap[0] = lastelt
            _siftup(heap, 0)
            return returnitem
        return lastelt

Failure (IndexError on an empty heap) is modelled by the value none. -/

def heappop (heap : List AbstractEvent) : Option (AbstractEvent × List AbstractEvent) :=
  match heap with
  | [] => none
  | e :: es =>
    let lastelt := (e :: es).getLast (List.cons_ne_nil e es)
    let rest := (e :: es).dropLast
    if hr : rest = [] then
      some (lastelt, [])
    else
      some (rest.head hr, siftup (rest.set 0 lastelt) 0 0 lastelt)

/-- The selected child of a node is one of its two children. -/
theorem siftupChild_cases (heap : List AbstractEvent) (pos : Nat) :
    siftupChild heap pos = 2 * pos + 1 ∨ siftupChild heap pos = 2 * pos + 2 := by
  unfold siftupChild
  split
  · exact Or.inr rfl
  · exact Or.inl rfl

/-- The siftdown pass preserves the length of the heap list. -/
theorem siftdown_length (pos : Nat) : ∀ (heap : List AbstractEvent) (startpos : Nat)
    (newitem : AbstractEvent), (siftdown heap startpos pos newitem).length = heap.length := by
  induction pos using Nat.strong_induction_on with
  | _ pos ih =>
    intro heap startpos newitem
    rw [siftdown]
    split
    · split
      · rw [ih _ (by omega)]
        simp
      · simp
    · simp

/-- The siftup pass preserves the length of the heap list. -/
theorem siftup_length (fuel : Nat) : ∀ (heap : List AbstractEvent) (startpos pos : Nat)
    (newitem : AbstractEvent), heap.length - pos ≤ fuel →
    (siftup heap startpos pos newitem).length = heap.length := by
  induction fuel with
  | zero =>
    intro heap startpos pos newitem hf
    rw [siftup]
    split
    · omega
    · simp [siftdown_length]
  | succ n ih =>
    intro heap startpos pos newitem hf
    rw [siftup]
    split
    · rename_i h1
      rcases siftupChild_cases heap pos with hc | hc <;>
        · rw [ih _ _ _ _ (by simp [hc]; omega)]
          simp
    · simp [siftdown_length]

theorem siftup_length' (heap : List AbstractEvent) (startpos pos : Nat)
    (newitem : AbstractEvent) : (siftup heap startpos pos newitem).length = heap.length :=
  siftup_length (heap.length - pos) heap startpos pos newitem le_rfl

/-! ### The binary-heap invariant

heapq maintains the invariant that every element is not smaller than its
parent; elements compare by date_time only (AbstractEvent.__lt__).  dtAt reads
the date_time at an index, with an irrelevant default out of range. -/

def dtAt (l : List AbstractEvent) (i : Nat) : Int :=
  (evAt l i).date_time

/-- The min-heap invariant of the Python heapq module, on date_time values:
every position except the root is not smaller than its parent. -/
def IsHeap (l : List AbstractEvent) : Prop :=
  ∀ j : Nat, 0 < j → j < l.length → dtAt l ((j - 1) / 2) ≤ dtAt l j

theorem evAt_set_self {l : List AbstractEvent} {i : Nat} (a : AbstractEvent)
    (h : i < l.length) : evAt (l.set i a) i = a := by
  simp [evAt, List.getD, List.get?_eq_getElem?, List.getElem?_set_eq_of_lt a h]

theorem evAt_set_ne {l : List AbstractEvent} {i j : Nat} (a : AbstractEvent)
    (h : i ≠ j) : evAt (l.set i a) j = evAt l j := by
  simp [evAt, List.getD, List.get?_eq_getElem?, List.getElem?_set_ne h]

theorem evAt_append_self (l : List AbstractEvent) (x : AbstractEvent) :
    evAt (l ++ [x]) l.length = x := by
  simp [evAt, List.getD, List.get?_eq_getElem?]

theorem evAt_append_lt (l : List AbstractEvent) (x : AbstractEvent) {j : Nat}
    (h : j < l.length) : evAt (l ++ [x]) j = evAt l j := by
  simp [evAt, List.getD, List.get?_eq_getElem?, List.getElem?_append_left h]

theorem evAt_dropLast (l : List AbstractEvent) {j : Nat} (h : j < l.length - 1) :
    evAt l.dropLast j = evAt l j := by
  simp only [evAt, List.getD, List.get?_eq_getElem?]
  rw [List.getElem?_eq_getElem (by simp [List.length_dropLast]; omega),
    List.getElem?_eq_getElem (by omega : j < l.length)]
  simp [List.getElem_dropLast]

theorem evAt_getLast (l : List AbstractEvent) (h : l ≠ []) :
    l.getLast h = evAt l (l.length - 1) := by
  have hl : 0 < l.length := List.length_pos.mpr h
  rw [List.getLast_eq_getElem]
  simp only [evAt, List.getD, List.get?_eq_getElem?]
  rw [List.getElem?_eq_getElem (by omega)]
  rfl

theorem evAt_mem (l : List AbstractEvent) {j : Nat} (h : j < l.length) :
    evAt l j ∈ l := by
  simp only [evAt, List.getD, List.get?_eq_getElem?]
  rw [List.getElem?_eq_getElem h]
  exact List.getElem_mem h

theorem mem_evAt (l : List AbstractEvent) {x : AbstractEvent} (h : x ∈ l) :
    ∃ j : Nat, j < l.length ∧ evAt l j = x := by
  obtain ⟨⟨j, hj⟩, rfl⟩ := List.mem_iff_get.mp h
  refine ⟨j, hj, ?_⟩
  simp only [evAt, List.getD, List.get?_eq_getElem?]
  rw [List.getElem?_eq_getElem hj]
  simp [List.get_eq_getElem]

theorem dtAt_set_self {l : List AbstractEvent} {i : Nat} (a : AbstractEvent)
    (h : i < l.length) : dtAt (l.set i a) i = a.date_time := by
  simp [dtAt, evAt_set_self a h]

theorem dtAt_set_ne {l : List AbstractEvent} {i j : Nat} (a : AbstractEvent)
    (h : i ≠ j) : dtAt (l.set i a) j = dtAt l j := by
  simp [dtAt, evAt_set_ne a h]

/-- Writing a at position i exchanges a for the previous entry, as multisets. -/
theorem multiset_set (a : AbstractEvent) : ∀ (l : List AbstractEvent) (i : Nat),
    i < l.length →
    (↑(l.set i a) : Multiset AbstractEvent) + {evAt l i} = ↑l + {a} := by
  intro l
  induction l with
  | nil => intro i hi; simp at hi
  | cons x xs ih =>
    intro i hi
    cases i with
    | zero =>
      show (↑(a :: xs) : Multiset AbstractEvent) + {x} = ↑(x :: xs) + {a}
      rw [← Multiset.cons_coe, ← Multiset.cons_coe, ← Multiset.singleton_add,
        ← Multiset.singleton_add]
      abel
    | succ n =>
      have hev : evAt (x :: xs) (n + 1) = evAt xs n := by
        simp [evAt, List.getD]
      show (↑(x :: xs.set n a) : Multiset AbstractEvent) + {evAt (x :: xs) (n + 1)}
          = ↑(x :: xs) + {a}
      rw [hev, ← Multiset.cons_coe, ← Multiset.cons_coe, ← Multiset.singleton_add,
        ← Multiset.singleton_add, add_assoc, add_assoc,
        ih n (by simpa using Nat.lt_of_succ_lt_succ hi)]

/-- In a heap the root is minimal. -/
theorem rootMin {l : List AbstractEvent} (hH : IsHeap l) :
    ∀ j : Nat, j < l.length → dtAt l 0 ≤ dtAt l j := by
  intro j
  induction j using Nat.strong_induction_on with
  | _ j ih =>
    intro hj
    rcases Nat.eq_zero_or_pos j with rfl | hpos
    · exact le_rfl
    · exact le_trans (ih ((j - 1) / 2) (by omega) (by omega)) (hH j hpos hj)

/-- Multiset action of the siftdown pass: the entry at pos is exchanged for newitem. -/
theorem siftdown_multiset (pos : Nat) : ∀ (heap : List AbstractEvent) (startpos : Nat)
    (newitem : AbstractEvent), pos < heap.length →
    (↑(siftdown heap startpos pos newitem) : Multiset AbstractEvent)
      + {evAt heap pos} = ↑heap + {newitem} := by
  induction pos using Nat.strong_induction_on with
  | _ pos ih =>
    intro heap startpos newitem hpos
    rw [siftdown]
    split
    · rename_i h1
      split
      · rename_i h2
        have hpp : (pos - 1) / 2 < pos := by omega
        have hpplen : (pos - 1) / 2 < heap.length := by omega
        have hrec := ih _ hpp (heap.set pos (evAt heap ((pos - 1) / 2))) startpos
          newitem (by simpa using hpplen)
        rw [evAt_set_ne _ (by omega : pos ≠ (pos - 1) / 2)] at hrec
        have hms := multiset_set (evAt heap ((pos - 1) / 2)) heap pos hpos
        have key : (↑(siftdown (heap.set pos (evAt heap ((pos - 1) / 2))) startpos
              ((pos - 1) / 2) newitem) : Multiset AbstractEvent)
              + {evAt heap pos} + {evAt heap ((pos - 1) / 2)}
            = ↑heap + {newitem} + {evAt heap ((pos - 1) / 2)} := by
          calc (↑(siftdown (heap.set pos (evAt heap ((pos - 1) / 2))) startpos
                ((pos - 1) / 2) newitem) : Multiset AbstractEvent)
                + {evAt heap pos} + {evAt heap ((pos - 1) / 2)}
              = ↑(siftdown (heap.set pos (evAt heap ((pos - 1) / 2))) startpos
                ((pos - 1) / 2) newitem) + {evAt heap ((pos - 1) / 2)} + {evAt heap pos} := by
                rw [add_right_comm]
            _ = ↑(heap.set pos (evAt heap ((pos - 1) / 2))) + {newitem} + {evAt heap pos} := by
                rw [hrec]
            _ = ↑(heap.set pos (evAt heap ((pos - 1) / 2))) + {evAt heap pos} + {newitem} := by
                rw [add_right_comm]
            _ = ↑heap + {evAt heap ((pos - 1) / 2)} + {newitem} := by rw [hms]
            _ = ↑heap + {newitem} + {evAt heap ((pos - 1) / 2)} := by rw [add_right_comm]
        exact add_right_cancel key
      · exact multiset_set newitem heap pos hpos
    · exact multiset_set newitem heap pos hpos

theorem eventLt_true {a b : AbstractEvent} :
    eventLt a b = true ↔ a.date_time < b.date_time := by
  simp [eventLt]

theorem eventLt_false {a b : AbstractEvent} :
    eventLt a b = false ↔ b.date_time ≤ a.date_time := by
  simp [eventLt]

theorem dtAt_evAt (l : List AbstractEvent) (i : Nat) : dtAt l i = (evAt l i).date_time :=
  rfl

/-- Heap-property restoration by the siftdown pass.  Precondition: the heap
property holds everywhere except possibly at the hole pos (h1); the children of
the hole dominate the grandparent of the hole (h2) and newitem (h3). -/
theorem siftdown_isHeap (pos : Nat) : ∀ (heap : List AbstractEvent)
    (newitem : AbstractEvent), pos < heap.length →
    (∀ j, 0 < j → j < heap.length → j ≠ pos → dtAt heap ((j - 1) / 2) ≤ dtAt heap j) →
    (∀ j, 0 < j → j < heap.length → (j - 1) / 2 = pos → 0 < pos →
      dtAt heap ((pos - 1) / 2) ≤ dtAt heap j) →
    (∀ j, 0 < j → j < heap.length → (j - 1) / 2 = pos → newitem.date_time ≤ dtAt heap j) →
    IsHeap (siftdown heap 0 pos newitem) := by
  induction pos using Nat.strong_induction_on with
  | _ pos ih =>
    intro heap newitem hpos h1 h2 h3
    rw [siftdown]
    split
    · rename_i hp1
      split
      · rename_i hlt
        rw [eventLt_true, ← dtAt_evAt] at hlt
        refine ih ((pos - 1) / 2) (by omega) _ newitem (by simp; omega) ?_ ?_ ?_
        · -- the heap property away from the new hole
          intro j hj0 hjlen hjne
          simp only [List.length_set] at hjlen
          by_cases hjp : j = pos
          · subst hjp
            rw [dtAt_set_ne _ (by omega : j ≠ (j - 1) / 2),
              dtAt_set_self _ hpos, ← dtAt_evAt]
          · by_cases hjc : (j - 1) / 2 = pos
            · rw [dtAt_set_ne _ (by omega : pos ≠ j), hjc, dtAt_set_self _ hpos, ← dtAt_evAt]
              exact h2 j hj0 hjlen hjc hp1
            · rw [dtAt_set_ne _ (by omega : pos ≠ j),
                dtAt_set_ne _ (fun hc => hjc hc.symm)]
              exact h1 j hj0 hjlen hjp
        · -- children of the new hole dominate its parent
          intro j hj0 hjlen hjpar hpp0
          simp only [List.length_set] at hjlen
          have hgp : ((pos - 1) / 2 - 1) / 2 ≠ pos := by omega
          rw [dtAt_set_ne _ (fun hc => hgp hc.symm)]
          have hparent := h1 ((pos - 1) / 2) hpp0 (by omega) (by omega)
          by_cases hjp : j = pos
          · subst hjp
            rw [dtAt_set_self _ hpos, ← dtAt_evAt]
            exact hparent
          · rw [dtAt_set_ne _ (by omega : pos ≠ j)]
            have hchild := h1 j hj0 hjlen hjp
            rw [hjpar] at hchild
            exact le_trans hparent hchild
        · -- children of the new hole dominate newitem
          intro j hj0 hjlen hjpar
          simp only [List.length_set] at hjlen
          by_cases hjp : j = pos
          · subst hjp
            rw [dtAt_set_self _ hpos, ← dtAt_evAt]
            exact le_of_lt hlt
          · rw [dtAt_set_ne _ (by omega : pos ≠ j)]
            have hchild := h1 j hj0 hjlen hjp
            rw [hjpar] at hchild
            exact le_trans (le_of_lt hlt) hchild
      · rename_i hge
        rw [Bool.not_eq_true, eventLt_false, ← dtAt_evAt] at hge
        intro j hj0 hjlen
        simp only [List.length_set] at hjlen
        by_cases hjp : j = pos
        · subst hjp
          rw [dtAt_set_ne _ (by omega : j ≠ (j - 1) / 2), dtAt_set_self _ hpos]
          exact hge
        · by_cases hjc : (j - 1) / 2 = pos
          · rw [hjc, dtAt_set_self _ hpos, dtAt_set_ne _ (by omega : pos ≠ j)]
            exact h3 j hj0 hjlen hjc
          · rw [dtAt_set_ne _ (by omega : pos ≠ j),
              dtAt_set_ne _ (fun hc => hjc hc.symm)]
            exact h1 j hj0 hjlen hjp
    · rename_i hp1
      have hp0 : pos = 0 := by omega
      subst hp0
      intro j hj0 hjlen
      simp only [List.length_set] at hjlen
      by_cases hjc : (j - 1) / 2 = 0
      · rw [hjc, dtAt_set_self _ hpos, dtAt_set_ne _ (by omega : 0 ≠ j)]
        exact h3 j hj0 hjlen hjc
      · rw [dtAt_set_ne _ (by omega : 0 ≠ j), dtAt_set_ne _ (fun hc => hjc hc.symm)]
        exact h1 j hj0 hjlen (by omega)

/-- The selected child is in range. -/
theorem siftupChild_lt (heap : List AbstractEvent) (pos : Nat)
    (h : 2 * pos + 1 < heap.length) : siftupChild heap pos < heap.length := by
  unfold siftupChild
  split
  · rename_i hcond
    simp only [Bool.and_eq_true, decide_eq_true_eq] at hcond
    exact hcond.1
  · omega

/-- The selected child holds the smaller of the two child values. -/
theorem siftupChild_min (heap : List AbstractEvent) (pos : Nat)
    (h : 2 * pos + 1 < heap.length) :
    ∀ s, (s = 2 * pos + 1 ∨ s = 2 * pos + 2) → s < heap.length →
    dtAt heap (siftupChild heap pos) ≤ dtAt heap s := by
  intro s hs hslen
  unfold siftupChild
  split
  · rename_i hcond
    simp only [Bool.and_eq_true, Bool.not_eq_true', decide_eq_true_eq] at hcond
    rcases hs with rfl | rfl
    · exact eventLt_false.mp hcond.2
    · exact le_rfl
  · rename_i hcond
    simp only [Bool.and_eq_true, Bool.not_eq_true', decide_eq_true_eq, not_and] at hcond
    rcases hs with rfl | rfl
    · exact le_rfl
    · have hlt : eventLt (evAt heap (2 * pos + 1)) (evAt heap (2 * pos + 2)) = true := by
        cases hE : eventLt (evAt heap (2 * pos + 1)) (evAt heap (2 * pos + 2))
        · exact absurd hE (hcond hslen)
        · rfl
      exact le_of_lt (eventLt_true.mp hlt)

/-- Multiset action of the siftup pass: the entry at pos is exchanged for newitem. -/
theorem siftup_multiset (fuel : Nat) : ∀ (heap : List AbstractEvent) (startpos pos : Nat)
    (newitem : AbstractEvent), heap.length - pos ≤ fuel → pos < heap.length →
    (↑(siftup heap startpos pos newitem) : Multiset AbstractEvent)
      + {evAt heap pos} = ↑heap + {newitem} := by
  induction fuel with
  | zero =>
    intro heap startpos pos newitem hf hpos
    omega
  | succ n ih =>
    intro heap startpos pos newitem hf hpos
    rw [siftup]
    split
    · rename_i h1
      have hcc := siftupChild_cases heap pos
      have hclt := siftupChild_lt heap pos h1
      have hcgt : pos < siftupChild heap pos := by omega
      have hrec := ih (heap.set pos (evAt heap (siftupChild heap pos))) startpos
        (siftupChild heap pos) newitem (by simp; omega) (by simp; omega)
      rw [evAt_set_ne _ (by omega : pos ≠ siftupChild heap pos)] at hrec
      have hms := multiset_set (evAt heap (siftupChild heap pos)) heap pos hpos
      have key : (↑(siftup (heap.set pos (evAt heap (siftupChild heap pos))) startpos
            (siftupChild heap pos) newitem) : Multiset AbstractEvent)
            + {evAt heap pos} + {evAt heap (siftupChild heap pos)}
          = ↑heap + {newitem} + {evAt heap (siftupChild heap pos)} := by
        calc (↑(siftup (heap.set pos (evAt heap (siftupChild heap pos))) startpos
              (siftupChild heap pos) newitem) : Multiset AbstractEvent)
              + {evAt heap pos} + {evAt heap (siftupChild heap pos)}
            = ↑(siftup (heap.set pos (evAt heap (siftupChild heap pos))) startpos
              (siftupChild heap pos) newitem)
              + {evAt heap (siftupChild heap pos)} + {evAt heap pos} := by rw [add_right_comm]
          _ = ↑(heap.set pos (evAt heap (siftupChild heap pos))) + {newitem}
              + {evAt heap pos} := by rw [hrec]
          _ = ↑(heap.set pos (evAt heap (siftupChild heap pos))) + {evAt heap pos}
              + {newitem} := by rw [add_right_comm]
          _ = ↑heap + {evAt heap (siftupChild heap pos)} + {newitem} := by rw [hms]
          _ = ↑heap + {newitem} + {evAt heap (siftupChild heap pos)} := by rw [add_right_comm]
      exact add_right_cancel key
    · have hsd := siftdown_multiset pos (heap.set pos newitem) startpos newitem (by simp; omega)
      rw [evAt_set_self _ hpos] at hsd
      have h2 := add_right_cancel hsd
      rw [h2]
      exact multiset_set newitem heap pos hpos

/-- Heap-property restoration by the siftup pass.  Precondition: the heap
property holds at every pair not involving the hole pos (hA), and the children
of the hole dominate the parent of the hole (hB). -/
theorem siftup_isHeap (fuel : Nat) : ∀ (heap : List AbstractEvent) (pos : Nat)
    (newitem : AbstractEvent), heap.length - pos ≤ fuel → pos < heap.length →
    (∀ j, 0 < j → j < heap.length → j ≠ pos → (j - 1) / 2 ≠ pos →
      dtAt heap ((j - 1) / 2) ≤ dtAt heap j) →
    (∀ j, 0 < j → j < heap.length → (j - 1) / 2 = pos → 0 < pos →
      dtAt heap ((pos - 1) / 2) ≤ dtAt heap j) →
    IsHeap (siftup heap 0 pos newitem) := by
  induction fuel with
  | zero =>
    intro heap pos newitem hf hpos
    omega
  | succ n ih =>
    intro heap pos newitem hf hpos hA hB
    rw [siftup]
    split
    · rename_i h1
      have hcc := siftupChild_cases heap pos
      have hclt := siftupChild_lt heap pos h1
      have hcgt : pos < siftupChild heap pos := by omega
      have hcpar : (siftupChild heap pos - 1) / 2 = pos := by omega
      have hcmin := siftupChild_min heap pos h1
      refine ih (heap.set pos (evAt heap (siftupChild heap pos))) (siftupChild heap pos)
        newitem (by simp; omega) (by simp; omega) ?_ ?_
      · -- heap property away from the new hole
        intro j hj0 hjlen hjc hjpc
        simp only [List.length_set] at hjlen
        by_cases hjp : j = pos
        · subst hjp
          rw [dtAt_set_ne _ (by omega : j ≠ (j - 1) / 2),
            dtAt_set_self _ hpos, ← dtAt_evAt]
          exact hB (siftupChild heap j) (by omega) hclt hcpar hj0
        · by_cases hjpar : (j - 1) / 2 = pos
          · rw [hjpar, dtAt_set_self _ hpos, ← dtAt_evAt,
              dtAt_set_ne _ (by omega : pos ≠ j)]
            exact hcmin j (by omega) hjlen
          · rw [dtAt_set_ne _ (by omega : pos ≠ j),
              dtAt_set_ne _ (fun hc => hjpar hc.symm)]
            exact hA j hj0 hjlen hjp hjpar
      · -- children of the new hole dominate its parent
        intro j hj0 hjlen hjpar hc0
        simp only [List.length_set] at hjlen
        rw [hcpar, dtAt_set_self _ hpos, ← dtAt_evAt,
          dtAt_set_ne _ (by omega : pos ≠ j)]
        have := hA j hj0 hjlen (by omega) (by omega)
        rw [hjpar] at this
        exact this
    · rename_i h1
      refine siftdown_isHeap pos (heap.set pos newitem) newitem (by simp; omega) ?_ ?_ ?_
      · intro j hj0 hjlen hjp
        simp only [List.length_set] at hjlen
        have hnc : (j - 1) / 2 ≠ pos := by omega
        rw [dtAt_set_ne _ (by omega : pos ≠ j), dtAt_set_ne _ (fun hc => hnc hc.symm)]
        exact hA j hj0 hjlen hjp hnc
      · intro j hj0 hjlen hjpar hp0
        simp only [List.length_set] at hjlen
        omega
      · intro j hj0 hjlen hjpar
        simp only [List.length_set] at hjlen
        omega

/-- heappush inserts exactly the pushed element, as multisets. -/
theorem heappush_multiset (l : List AbstractEvent) (x : AbstractEvent) :
    (↑(heappush l x) : Multiset AbstractEvent) = ↑l + {x} := by
  unfold heappush
  have hms := siftdown_multiset l.length (l ++ [x]) 0 x (by simp)
  rw [evAt_append_self] at hms
  have h2 := add_right_cancel hms
  rw [h2, ← Multiset.coe_add]
  rfl

/-- heappush preserves the heap invariant. -/
theorem heappush_isHeap {l : List AbstractEvent} (hH : IsHeap l) (x : AbstractEvent) :
    IsHeap (heappush l x) := by
  unfold heappush
  refine siftdown_isHeap l.length (l ++ [x]) x (by simp) ?_ ?_ ?_
  · intro j hj0 hjlen hjne
    simp only [List.length_append, List.length_cons, List.length_nil] at hjlen
    have hjl : j < l.length := by omega
    rw [dtAt_evAt, dtAt_evAt, evAt_append_lt _ _ hjl, evAt_append_lt _ _ (by omega),
      ← dtAt_evAt, ← dtAt_evAt]
    exact hH j hj0 hjl
  · intro j hj0 hjlen hjpar hp0
    simp only [List.length_append, List.length_cons, List.length_nil] at hjlen
    omega
  · intro j hj0 hjlen hjpar
    simp only [List.length_append, List.length_cons, List.length_nil] at hjlen
    omega

theorem evAt_head (l : List AbstractEvent) (h : l ≠ []) : l.head h = evAt l 0 := by
  cases l with
  | nil => exact absurd rfl h
  | cons a as => rfl

/-- heappop fails exactly on the empty heap. -/
theorem heappop_none_iff {l : List AbstractEvent} : heappop l = none ↔ l = [] := by
  cases l with
  | nil => simp [heappop]
  | cons a as =>
    simp only [heappop]
    split <;> simp

/-- heappop removes exactly the returned element, as multisets. -/
theorem heappop_multiset {l l' : List AbstractEvent} {e : AbstractEvent}
    (h : heappop l = some (e, l')) : (↑l' : Multiset AbstractEvent) + {e} = ↑l := by
  cases l with
  | nil => simp [heappop] at h
  | cons a as =>
    simp only [heappop] at h
    split at h
    · rename_i hr
      cases h
      have has : as = [] := by
        cases as with
        | nil => rfl
        | cons b bs => simp [List.dropLast] at hr
      subst has
      simp [List.getLast]
    · rename_i hr
      cases h
      have hrlen : 0 < ((a :: as).dropLast).length := List.length_pos.mpr hr
      have hms := siftup_multiset
        (((a :: as).dropLast.set 0 ((a :: as).getLast (List.cons_ne_nil a as))).length)
        ((a :: as).dropLast.set 0 ((a :: as).getLast (List.cons_ne_nil a as))) 0 0
        ((a :: as).getLast (List.cons_ne_nil a as)) le_rfl (by simpa using hrlen)
      rw [evAt_set_self _ hrlen] at hms
      have h2 := add_right_cancel hms
      rw [h2, evAt_head _ hr, multiset_set _ _ _ hrlen, ← Multiset.coe_singleton,
        Multiset.coe_add, Multiset.coe_eq_coe]
      exact List.Perm.of_eq (List.dropLast_append_getLast (List.cons_ne_nil a as))

/-- heappop returns the root of the heap. -/
theorem heappop_head {l l' : List AbstractEvent} {e : AbstractEvent}
    (h : heappop l = some (e, l')) : e = evAt l 0 := by
  cases l with
  | nil => simp [heappop] at h
  | cons a as =>
    simp only [heappop] at h
    split at h
    · rename_i hr
      cases h
      have has : as = [] := by
        cases as with
        | nil => rfl
        | cons b bs => simp [List.dropLast] at hr
      subst has
      rfl
    · rename_i hr
      cases h
      rw [evAt_head _ hr]
      have hrlen : 0 < ((a :: as).dropLast).length := List.length_pos.mpr hr
      have hlen : ((a :: as).dropLast).length = (a :: as).length - 1 :=
        List.length_dropLast _
      exact evAt_dropLast _ (by omega)

/-- On a heap, heappop preserves the invariant and returns a minimal element. -/
theorem heappop_spec {l : List AbstractEvent} (hH : IsHeap l) {e : AbstractEvent}
    {l' : List AbstractEvent} (h : heappop l = some (e, l')) :
    IsHeap l' ∧ (∀ x ∈ l', e.date_time ≤ x.date_time) ∧ (∀ x ∈ l', x ∈ l) := by
  have hms := heappop_multiset h
  have hsub : ∀ x ∈ l', x ∈ l := by
    intro x hx
    have hx2 : x ∈ (↑l' : Multiset AbstractEvent) + {e} := by
      rw [Multiset.mem_add]
      exact Or.inl (by simpa using hx)
    rw [hms] at hx2
    simpa using hx2
  have hmin : ∀ x ∈ l', e.date_time ≤ x.date_time := by
    intro x hx
    obtain ⟨j, hjlen, rfl⟩ := mem_evAt l (hsub x hx)
    rw [heappop_head h]
    exact rootMin hH j hjlen
  refine ⟨?_, hmin, hsub⟩
  cases l with
  | nil => simp [heappop] at h
  | cons a as =>
    simp only [heappop] at h
    split at h
    · cases h
      intro j hj0 hjlen
      simp at hjlen
    · rename_i hr
      cases h
      have hrlen : 0 < ((a :: as).dropLast).length := List.length_pos.mpr hr
      have hldl : ((a :: as).dropLast).length = (a :: as).length - 1 :=
        List.length_dropLast _
      refine siftup_isHeap
        (((a :: as).dropLast.set 0 ((a :: as).getLast (List.cons_ne_nil a as))).length)
        _ 0 _ le_rfl (by simpa using hrlen) ?_ ?_
      · intro j hj0 hjlen hjne hjpc
        simp only [List.length_set] at hjlen
        rw [dtAt_set_ne _ (by omega : (0 : Nat) ≠ j),
          dtAt_set_ne _ (fun hc => hjpc hc.symm),
          dtAt_evAt, dtAt_evAt,
          evAt_dropLast _ (by omega : (j - 1) / 2 < (a :: as).length - 1),
          evAt_dropLast _ (by omega : j < (a :: as).length - 1),
          ← dtAt_evAt, ← dtAt_evAt]
        exact hH j hj0 (by omega)
      · intro j hj0 hjlen hjpar h0
        exact absurd h0 (lt_irrefl 0)

/-- heappop removes exactly one element. -/
theorem heappop_length {pq rest : List AbstractEvent} {e : AbstractEvent}
    (h : heappop pq = some (e, rest)) : rest.length + 1 = pq.length := by
  cases pq with
  | nil => simp [heappop] at h
  | cons a as =>
    simp only [heappop] at h
    split at h
    · cases h
      rename_i hr
      have has : as = [] := by
        cases as with
        | nil => rfl
        | cons b bs => simp [List.dropLast] at hr
      subst has
      simp
    · cases h
      rename_i hr
      have hlen := List.length_dropLast (a :: as)
      simp only [siftup_length', List.length_set, List.length_dropLast, List.length_cons] at *
      omega

/-! ### PriorityQueue (priority_queue.py)

The queue state is the Python list self._pq.  The thread lock serialises the
five operations; each operation is therefore modelled as an atomic function of
the list. -/

namespace PriorityQueue

/-- Embeds PriorityQueue.push (priority_queue.py lines 43-51). -/
def push (pq : List AbstractEvent) (event : AbstractEvent) : List AbstractEvent :=
  heappush pq event

/-- Embeds PriorityQueue.pop (priority_queue.py lines 53-67): heappop repeatedly,
discarding cancelled events, returning the first non-cancelled event together
with the remaining heap.  none models the IndexError escaping from heappop; at
that point every element has been popped, so the remaining Python list is empty. -/
def pop (pq : List AbstractEvent) : Option (AbstractEvent × List AbstractEvent) :=
  match h : heappop pq with
  | none => none
  | some (event, rest) =>
    if event.cancelled then pop rest else some (event, rest)
termination_by pq.length
decreasing_by
  have := heappop_length h
  omega

/-- Embeds PriorityQueue.empty (priority_queue.py lines 69-81): true iff no
non-cancelled event is present. -/
def empty (pq : List AbstractEvent) : Bool :=
  pq.all (fun e => e.cancelled)

/-- Embeds the loop body of PriorityQueue.cancel (priority_queue.py lines 83-101):
marks every event satisfying the key as cancelled, returning the list of events
cancelled by this call (in queue order) together with the updated queue. -/
def cancel (pq : List AbstractEvent) (key : AbstractEvent → Bool) :
    List AbstractEvent × List AbstractEvent :=
  match pq with
  | [] => ([], [])
  | e :: rest =>
    let (le, pq2) := cancel rest key
    if key e then
      (e.cancel :: le, e.cancel :: pq2)
    else
      (le, e :: pq2)

/-- Embeds PriorityQueue.contains (priority_queue.py lines 103-121). -/
def contains (pq : List AbstractEvent) (key : AbstractEvent → Bool) : Bool :=
  pq.any key

/-- Embeds PriorityQueue.get (priority_queue.py lines 123-144). -/
def get (pq : List AbstractEvent) (key : AbstractEvent → Bool) : List AbstractEvent :=
  pq.filter key

end PriorityQueue

theorem evAt_cons_zero (a : AbstractEvent) (t : List AbstractEvent) :
    evAt (a :: t) 0 = a := rfl

theorem evAt_cons_succ (a : AbstractEvent) (t : List AbstractEvent) (n : Nat) :
    evAt (a :: t) (n + 1) = evAt t n := rfl

/-- PriorityQueue.pop never returns an event whose cancelled flag is set.
This needs no heap assumption: the skipping loop checks the flag itself. -/
theorem pop_not_cancelled_aux : ∀ (n : Nat) (pq : List AbstractEvent), pq.length ≤ n →
    ∀ {e : AbstractEvent} {rest : List AbstractEvent},
    PriorityQueue.pop pq = some (e, rest) → e.cancelled = false := by
  intro n
  induction n with
  | zero =>
    intro pq hlen e rest h
    have hnil : pq = [] := List.length_eq_zero.mp (by omega)
    subst hnil
    rw [PriorityQueue.pop] at h
    simp [heappop] at h
  | succ n ih =>
    intro pq hlen e rest h
    rw [PriorityQueue.pop] at h
    split at h
    · cases h
    · rename_i e0 rest0 heq
      split at h
      · exact ih rest0 (by have := heappop_length heq; omega) h
      · rename_i hc
        cases h
        simp at hc
        exact hc

theorem pop_not_cancelled {pq : List AbstractEvent} {e : AbstractEvent}
    {rest : List AbstractEvent} (h : PriorityQueue.pop pq = some (e, rest)) :
    e.cancelled = false :=
  pop_not_cancelled_aux pq.length pq le_rfl h

/-- On a heap, PriorityQueue.pop preserves the heap invariant, returns an event
not later than everything left behind, and leaves behind only events of the
original queue. -/
theorem pop_spec_aux : ∀ (n : Nat) (pq : List AbstractEvent), pq.length ≤ n →
    IsHeap pq → ∀ {e : AbstractEvent} {rest : List AbstractEvent},
    PriorityQueue.pop pq = some (e, rest) →
    IsHeap rest ∧ (∀ x ∈ rest, e.date_time ≤ x.date_time) ∧ (∀ x ∈ rest, x ∈ pq) := by
  intro n
  induction n with
  | zero =>
    intro pq hlen hH e rest h
    have hnil : pq = [] := List.length_eq_zero.mp (by omega)
    subst hnil
    rw [PriorityQueue.pop] at h
    simp [heappop] at h
  | succ n ih =>
    intro pq hlen hH e rest h
    rw [PriorityQueue.pop] at h
    split at h
    · cases h
    · rename_i e0 rest0 heq
      have hspec := heappop_spec hH heq
      split at h
      · obtain ⟨h1, h2, h3⟩ := ih rest0 (by have := heappop_length heq; omega) hspec.1 h
        exact ⟨h1, h2, fun x hx => hspec.2.2 x (h3 x hx)⟩
      · cases h
        exact hspec

theorem pop_spec {pq : List AbstractEvent} (hH : IsHeap pq) {e : AbstractEvent}
    {rest : List AbstractEvent} (h : PriorityQueue.pop pq = some (e, rest)) :
    IsHeap rest ∧ (∀ x ∈ rest, e.date_time ≤ x.date_time) ∧ (∀ x ∈ rest, x ∈ pq) :=
  pop_spec_aux pq.length pq le_rfl hH h

/-- An element of the popped heap belongs to the original heap. -/
theorem heappop_mem {pq rest : List AbstractEvent} {e : AbstractEvent}
    (h : heappop pq = some (e, rest)) : e ∈ pq := by
  have hms := heappop_multiset h
  have : e ∈ (↑rest : Multiset AbstractEvent) + {e} := by
    rw [Multiset.mem_add]
    exact Or.inr (by simp)
  rw [hms] at this
  simpa using this

theorem heappop_mem_rest {pq rest : List AbstractEvent} {e x : AbstractEvent}
    (h : heappop pq = some (e, rest)) (hx : x ∈ rest) : x ∈ pq := by
  have hms := heappop_multiset h
  have : x ∈ (↑rest : Multiset AbstractEvent) + {e} := by
    rw [Multiset.mem_add]
    exact Or.inl (by simpa using hx)
  rw [hms] at this
  simpa using this

/-- PriorityQueue.pop fails if every queued event is cancelled. -/
theorem pop_none_of_all_cancelled_aux : ∀ (n : Nat) (pq : List AbstractEvent),
    pq.length ≤ n → (∀ x ∈ pq, x.cancelled = true) → PriorityQueue.pop pq = none := by
  intro n
  induction n with
  | zero =>
    intro pq hlen hall
    have hnil : pq = [] := List.length_eq_zero.mp (by omega)
    subst hnil
    rw [PriorityQueue.pop]
    rfl
  | succ n ih =>
    intro pq hlen hall
    rw [PriorityQueue.pop]
    split
    · rfl
    · rename_i e0 rest0 heq
      have hc : e0.cancelled = true := hall e0 (heappop_mem heq)
      rw [hc]
      simp only [if_true]
      exact ih rest0 (by have := heappop_length heq; omega)
        (fun x hx => hall x (heappop_mem_rest heq hx))

/-- If PriorityQueue.pop fails then every queued event was cancelled. -/
theorem all_cancelled_of_pop_none_aux : ∀ (n : Nat) (pq : List AbstractEvent),
    pq.length ≤ n → PriorityQueue.pop pq = none → ∀ x ∈ pq, x.cancelled = true := by
  intro n
  induction n with
  | zero =>
    intro pq hlen h
    have hnil : pq = [] := List.length_eq_zero.mp (by omega)
    subst hnil
    simp
  | succ n ih =>
    intro pq hlen h
    rw [PriorityQueue.pop] at h
    split at h
    · rename_i heq
      have hnil : pq = [] := heappop_none_iff.mp heq
      subst hnil
      simp
    · rename_i e0 rest0 heq
      split at h
      · rename_i hc
        intro x hx
        have hxor : x = e0 ∨ x ∈ rest0 := by
          have hms := heappop_multiset heq
          have : x ∈ (↑rest0 : Multiset AbstractEvent) + {e0} := by
            rw [hms]
            simpa using hx
          rw [Multiset.mem_add] at this
          rcases this with hm | hm
          · exact Or.inr (by simpa using hm)
          · exact Or.inl (by simpa using hm)
        rcases hxor with rfl | hm
        · exact hc
        · exact ih rest0 (by have := heappop_length heq; omega) h x hm
      · cases h

/-- The Empty condition: PriorityQueue.pop fails exactly when no non-cancelled
event remains. -/
theorem pop_none_iff (pq : List AbstractEvent) :
    PriorityQueue.pop pq = none ↔ ∀ x ∈ pq, x.cancelled = true :=
  ⟨all_cancelled_of_pop_none_aux pq.length pq le_rfl,
    pop_none_of_all_cancelled_aux pq.length pq le_rfl⟩

/-! ### Properties of PriorityQueue.cancel -/

/-- The updated queue after a cancel call is a pointwise map. -/
theorem cancel_snd (pq : List AbstractEvent) (k : AbstractEvent → Bool) :
    (PriorityQueue.cancel pq k).2 = pq.map (fun e => if k e then e.cancel else e) := by
  induction pq with
  | nil => rfl
  | cons a t ih =>
    simp only [PriorityQueue.cancel, List.map]
    split <;> simp [ih]

/-- The list returned by a cancel call: the matching events, marked cancelled. -/
theorem cancel_fst (pq : List AbstractEvent) (k : AbstractEvent → Bool) :
    (PriorityQueue.cancel pq k).1 = (pq.filter k).map AbstractEvent.cancel := by
  induction pq with
  | nil => rfl
  | cons a t ih =>
    simp only [PriorityQueue.cancel, List.filter]
    rcases hk : k a with _ | _ <;> simp [PriorityQueue.cancel, hk, ih]

/-- Mapping a date_time-preserving function over the queue preserves dtAt. -/
theorem dtAt_map_preserve (f : AbstractEvent → AbstractEvent)
    (hf : ∀ e, (f e).date_time = e.date_time) :
    ∀ (l : List AbstractEvent) (j : Nat), dtAt (l.map f) j = dtAt l j := by
  intro l
  induction l with
  | nil => intro j; rfl
  | cons a t ih =>
    intro j
    cases j with
    | zero => simp [dtAt, evAt_cons_zero, List.map, hf]
    | succ m =>
      simp only [List.map, dtAt, evAt_cons_succ]
      exact ih m

/-- Cancelling preserves the heap invariant: flags change, date_times do not. -/
theorem cancel_isHeap {pq : List AbstractEvent} (hH : IsHeap pq)
    (k : AbstractEvent → Bool) : IsHeap (PriorityQueue.cancel pq k).2 := by
  rw [cancel_snd]
  intro j hj0 hjlen
  simp only [List.length_map] at hjlen
  rw [dtAt_map_preserve _ (fun e => by unfold AbstractEvent.cancel; split <;> rfl),
    dtAt_map_preserve _ (fun e => by unfold AbstractEvent.cancel; split <;> rfl)]
  exact hH j hj0 hjlen

/-- Cancelling preserves the multiset of date_times elementwise. -/
theorem cancel_mem_dates {pq : List AbstractEvent} (k : AbstractEvent → Bool)
    {x : AbstractEvent} (hx : x ∈ (PriorityQueue.cancel pq k).2) :
    ∃ y ∈ pq, x.date_time = y.date_time := by
  rw [cancel_snd] at hx
  obtain ⟨y, hy, rfl⟩ := List.mem_map.mp hx
  refine ⟨y, hy, ?_⟩
  unfold AbstractEvent.cancel
  split <;> rfl

/-! ### Sequences of queue operations

A client of PriorityQueue interleaves push, cancel and pop calls.  runFrom
executes such a sequence against a queue state, recording the events that the
successful pop calls returned, in order.  A failed pop (the Empty condition,
IndexError) leaves the Python list empty: the loop inside pop has destructively
popped every element before the IndexError escapes. -/

inductive QOp where
  | pushOp (e : AbstractEvent)
  | cancelOp (k : AbstractEvent → Bool)
  | popOp

structure QRun where
  state : List AbstractEvent
  popped : List AbstractEvent
deriving Repr

def runFrom (s : List AbstractEvent) : List QOp → QRun
  | [] => ⟨s, []⟩
  | QOp.pushOp e :: rest => runFrom (PriorityQueue.push s e) rest
  | QOp.cancelOp k :: rest => runFrom (PriorityQueue.cancel s k).2 rest
  | QOp.popOp :: rest =>
    match PriorityQueue.pop s with
    | none => runFrom [] rest
    | some (e, s2) =>
      let r := runFrom s2 rest
      ⟨r.state, e :: r.popped⟩

def runOps (ops : List QOp) : QRun := runFrom [] ops

/-- No push occurs in the sequence. -/
def pushFree : List QOp → Bool
  | [] => true
  | QOp.pushOp _ :: _ => false
  | QOp.cancelOp _ :: rest => pushFree rest
  | QOp.popOp :: rest => pushFree rest

/-- Every push precedes every pop in the sequence. -/
def noPushAfterPop : List QOp → Bool
  | [] => true
  | QOp.pushOp _ :: rest => noPushAfterPop rest
  | QOp.cancelOp _ :: rest => noPushAfterPop rest
  | QOp.popOp :: rest => pushFree rest

theorem isHeap_nil : IsHeap ([] : List AbstractEvent) := by
  intro j hj0 hjlen
  simp at hjlen

/-- The event returned by pop belongs to the queue it was popped from. -/
theorem pop_mem_aux : ∀ (n : Nat) (pq : List AbstractEvent), pq.length ≤ n →
    ∀ {e : AbstractEvent} {rest : List AbstractEvent},
    PriorityQueue.pop pq = some (e, rest) → e ∈ pq := by
  intro n
  induction n with
  | zero =>
    intro pq hlen e rest h
    have hnil : pq = [] := List.length_eq_zero.mp (by omega)
    subst hnil
    rw [PriorityQueue.pop] at h
    simp [heappop] at h
  | succ n ih =>
    intro pq hlen e rest h
    rw [PriorityQueue.pop] at h
    split at h
    · cases h
    · rename_i e0 rest0 heq
      split at h
      · exact heappop_mem_rest heq (ih rest0 (by have := heappop_length heq; omega) h)
      · cases h
        exact heappop_mem heq

theorem pop_mem {pq : List AbstractEvent} {e : AbstractEvent}
    {rest : List AbstractEvent} (h : PriorityQueue.pop pq = some (e, rest)) : e ∈ pq :=
  pop_mem_aux pq.length pq le_rfl h

/-- Any run leaves the state a heap, starting from a heap. -/
theorem runFrom_isHeap : ∀ (ops : List QOp) (s : List AbstractEvent), IsHeap s →
    IsHeap (runFrom s ops).state := by
  intro ops
  induction ops with
  | nil => intro s hs; exact hs
  | cons op rest ih =>
    intro s hs
    cases op with
    | pushOp e => exact ih _ (heappush_isHeap hs e)
    | cancelOp k => exact ih _ (cancel_isHeap hs k)
    | popOp =>
      simp only [runFrom]
      cases hp : PriorityQueue.pop s with
      | none => exact ih [] isHeap_nil
      | some p =>
        obtain ⟨e, s2⟩ := p
        exact ih s2 (pop_spec hs hp).1

/-- Every event a run pops has its cancelled flag unset (over any sequence). -/
theorem runFrom_popped_not_cancelled : ∀ (ops : List QOp) (s : List AbstractEvent),
    ∀ e ∈ (runFrom s ops).popped, e.cancelled = false := by
  intro ops
  induction ops with
  | nil => intro s e he; simp [runFrom] at he
  | cons op rest ih =>
    intro s e he
    cases op with
    | pushOp x => exact ih _ e he
    | cancelOp k => exact ih _ e he
    | popOp =>
      simp only [runFrom] at he
      cases hp : PriorityQueue.pop s with
      | none =>
        rw [hp] at he
        exact ih [] e he
      | some p =>
        obtain ⟨e0, s2⟩ := p
        rw [hp] at he
        simp only [List.mem_cons] at he
        rcases he with rfl | he2
        · exact pop_not_cancelled hp
        · exact ih s2 e he2

/-- Over a push-free suffix, pops come out sorted, and every event seen (popped
or still queued) carries a date_time already present at the start. -/
theorem runFrom_pushFree_spec : ∀ (ops : List QOp) (s : List AbstractEvent), IsHeap s →
    pushFree ops = true →
    ((runFrom s ops).popped.map (fun e => e.date_time)).Sorted (· ≤ ·) ∧
    (∀ x ∈ (runFrom s ops).popped, ∃ y ∈ s, x.date_time = y.date_time) ∧
    (∀ x ∈ (runFrom s ops).state, ∃ y ∈ s, x.date_time = y.date_time) := by
  intro ops
  induction ops with
  | nil =>
    intro s hs hpf
    exact ⟨by simp [runFrom], by simp [runFrom], fun x hx => ⟨x, hx, rfl⟩⟩
  | cons op rest ih =>
    intro s hs hpf
    cases op with
    | pushOp e => simp [pushFree] at hpf
    | cancelOp k =>
      obtain ⟨h1, h2, h3⟩ := ih _ (cancel_isHeap hs k) hpf
      refine ⟨h1, ?_, ?_⟩
      · intro x hx
        obtain ⟨y, hy, hxy⟩ := h2 x hx
        obtain ⟨z, hz, hyz⟩ := cancel_mem_dates k hy
        exact ⟨z, hz, hxy.trans hyz⟩
      · intro x hx
        obtain ⟨y, hy, hxy⟩ := h3 x hx
        obtain ⟨z, hz, hyz⟩ := cancel_mem_dates k hy
        exact ⟨z, hz, hxy.trans hyz⟩
    | popOp =>
      simp only [runFrom]
      cases hp : PriorityQueue.pop s with
      | none =>
        obtain ⟨h1, h2, h3⟩ := ih [] isHeap_nil hpf
        refine ⟨h1, ?_, ?_⟩
        · intro x hx
          obtain ⟨y, hy, _⟩ := h2 x hx
          simp at hy
        · intro x hx
          obtain ⟨y, hy, _⟩ := h3 x hx
          simp at hy
      | some p =>
        obtain ⟨e, s2⟩ := p
        obtain ⟨hH2, hmin, hsub⟩ := pop_spec hs hp
        obtain ⟨h1, h2, h3⟩ := ih s2 hH2 hpf
        refine ⟨?_, ?_, ?_⟩
        · simp only [List.map_cons]
          rw [List.sorted_cons]
          refine ⟨?_, h1⟩
          intro b hb
          obtain ⟨x, hxmem, rfl⟩ := List.mem_map.mp hb
          obtain ⟨y, hy, hxy⟩ := h2 x hxmem
          have := hmin y hy
          omega
        · intro x hx
          simp only [List.mem_cons] at hx
          rcases hx with rfl | hx2
          · exact ⟨x, pop_mem hp, rfl⟩
          · obtain ⟨y, hy, hxy⟩ := h2 x hx2
            exact ⟨y, hsub y hy, hxy⟩
        · intro x hx
          obtain ⟨y, hy, hxy⟩ := h3 x hx
          exact ⟨y, hsub y hy, hxy⟩

/-- When every push precedes every pop, the popped events come out in
non-decreasing date_time order. -/
theorem runFrom_noPush_sorted : ∀ (ops : List QOp) (s : List AbstractEvent), IsHeap s →
    noPushAfterPop ops = true →
    ((runFrom s ops).popped.map (fun e => e.date_time)).Sorted (· ≤ ·) := by
  intro ops
  induction ops with
  | nil => intro s hs hnp; simp [runFrom]
  | cons op rest ih =>
    intro s hs hnp
    cases op with
    | pushOp e => exact ih _ (heappush_isHeap hs e) hnp
    | cancelOp k => exact ih _ (cancel_isHeap hs k) hnp
    | popOp =>
      simp only [runFrom]
      cases hp : PriorityQueue.pop s with
      | none => exact (runFrom_pushFree_spec rest [] isHeap_nil hnp).1
      | some p =>
        obtain ⟨e, s2⟩ := p
        obtain ⟨hH2, hmin, hsub⟩ := pop_spec hs hp
        obtain ⟨h1, h2, h3⟩ := runFrom_pushFree_spec rest s2 hH2 hnp
        simp only [List.map_cons]
        rw [List.sorted_cons]
        refine ⟨?_, h1⟩
        intro b hb
        obtain ⟨x, hxmem, rfl⟩ := List.mem_map.mp hb
        obtain ⟨y, hy, hxy⟩ := h2 x hxmem
        have := hmin y hy
        omega

/-! ### Python exceptions raised by the embedded code -/

inductive PyErr where
  | runtimeError (msg : String)
  | attributeError (msg : String)
  | valueError (msg : String)
deriving DecidableEq, Repr

/-! ### ExceptionThread (exception_threading.py)

A worker body either returns normally or raises; sys.exc_info is modelled by a
record carrying the exception class name and message.  ctorAcceptsMsg models
whether calling the exception class with a single message argument succeeds
(the TypeError fallback in join). -/

structure PyExc where
  cls : String
  msg : String
  ctorAcceptsMsg : Bool
deriving DecidableEq, Repr

inductive RunOutcome where
  | normal
  | raised (e : PyExc)
deriving DecidableEq, Repr

/-- The thread state after run: exc is the stored sys.exc_info; escaped is an
exception that propagated out of run inside the worker thread itself. -/
structure ThreadState where
  exc : Option PyExc
  escaped : Option PyExc
deriving DecidableEq, Repr

/-- Embeds ExceptionThread.run (exception_threading.py lines 52-66): the body
runs under a try block; a NotImplementedError is re-raised inside the worker
thread (the except NotImplementedError clause), any other BaseException is
stored in self.exc. -/
def ExceptionThread.run (body : RunOutcome) : ThreadState :=
  match body with
  | RunOutcome.normal => ⟨none, none⟩
  | RunOutcome.raised e =>
    if e.cls == "NotImplementedError" then ⟨none, some e⟩ else ⟨some e, none⟩

/-- Embeds ExceptionThread.join (exception_threading.py lines 68-83): when an
exception was stored, re-raise one of the same class carrying a message that
embeds the original message (falling back to RuntimeError when the class
cannot be constructed from a lone message).  The quotes of the Python format
string are omitted from the modelled message. -/
def ExceptionThread.join (name : String) (st : ThreadState) : Option PyExc :=
  match st.exc with
  | none => none
  | some e =>
    let m := "Thread " ++ name ++ " threw an exception: " ++ e.msg
    if e.ctorAcceptsMsg then some ⟨e.cls, m, e.ctorAcceptsMsg⟩
    else some ⟨"RuntimeError", m, true⟩

/-! ### CommunicationPort (communication_port.py) -/

inductive CommunicationMode where
  | FUNCTION_CALL_SEND
  | FUNCTION_CALL_RECV
  | TCP_SEND
  | TCP_RECV
deriving DecidableEq, Repr

/-- The value stored in _target_port: either a CommunicationPort reference
(identified by an id) or a transport address string. -/
inductive PortTarget where
  | portRef (pid : Nat)
  | address (addr : String)
deriving DecidableEq, Repr

structure PortState where
  mode : CommunicationMode
  target_port : Option PortTarget
  listening : Bool
deriving DecidableEq, Repr

/-- Embeds CommunicationPort.__init__ (communication_port.py lines 69-83):
_target_port is None and _listening is False; in TCP_SEND mode the constructor
calls _start_sending (lines 188-198), which creates the zmq socket and sets
_listening to True, before any target is known. -/
def mkPort (mode : CommunicationMode) : PortState :=
  { mode := mode, target_port := none,
    listening := mode == CommunicationMode.TCP_SEND }

/-- Embeds the target_port setter (communication_port.py lines 113-117); the
socket connect performed for TCP_SEND has no observable effect here. -/
def setTargetPort (s : PortState) (t : PortTarget) : PortState :=
  { s with target_port := some t }

/-- Embeds CommunicationPort.is_ready (communication_port.py lines 119-133). -/
def is_ready (s : PortState) : Bool :=
  let port_is_ref :=
    match s.target_port with
    | some (PortTarget.portRef _) => true
    | _ => false
  (port_is_ref && (CommunicationMode.FUNCTION_CALL_SEND == s.mode))
    || (CommunicationMode.TCP_SEND == s.mode && s.listening)

/-- Embeds CommunicationPort.receive (communication_port.py lines 150-174).
The registered receive callback is a Lean function producing an observation of
type ω; it receives the payload and, when present, the respond_function.  When
no respond_function is supplied and the mode matches none of the tested
branches, the callback is not invoked (noCall). -/
def CommunicationPort.receive {α ω : Type} (mode : CommunicationMode)
    (receive_callback : α → Option (α → ω) → ω) (noCall : ω)
    (data : α) (respond_function : Option (α → ω)) : ω :=
  match respond_function with
  | some r => receive_callback data (some r)
  | none =>
    if mode == CommunicationMode.TCP_SEND then
      receive_callback data none
    else if mode == CommunicationMode.FUNCTION_CALL_RECV
        || mode == CommunicationMode.FUNCTION_CALL_SEND then
      receive_callback data none
    else noCall

inductive SendResult (α ω : Type) where
  | localDelivered (w : ω)
  | tcpSent (payload : α)
deriving Repr

/-- Embeds CommunicationPort.send (communication_port.py lines 135-147).  In
FUNCTION_CALL_SEND mode it synchronously invokes the target port receive with
this port receive bound as the respond_function (which, when later invoked,
calls this port receive with respond_function=None).  In TCP_SEND mode the
payload is serialised onto the socket.  targetReceive and selfReceive are the
receive methods of the target port and of this port. -/
def CommunicationPort.send {α ω : Type} (s : PortState) (portName : String)
    (targetReceive : α → Option (α → ω) → ω)
    (selfReceive : α → Option (α → ω) → ω)
    (data : α) : Except PyErr (SendResult α ω) :=
  if !(is_ready s) then
    Except.error (PyErr.runtimeError (portName ++ ": communication ports are not ready"))
  else if s.mode == CommunicationMode.FUNCTION_CALL_SEND then
    Except.ok (SendResult.localDelivered
      (targetReceive data (some (fun d => selfReceive d none))))
  else if s.mode == CommunicationMode.TCP_SEND then
    Except.ok (SendResult.tcpSent data)
  else
    Except.error (PyErr.attributeError
      "communicationMode needs to be FUNCTION_CALL_SEND or TCP_SEND")

/-! ### Discovery (discovery.py) -/

inductive DiscoveryError where
  | SERVICE_UNKNOWN
  | MISSING_KEY_IN_REQUEST
deriving DecidableEq, Repr

inductive ServiceType where
  | CLIENT
  | ALLOCATOR
  | SCHEDULER
  | ELECTRICAL_NETWORK
deriving DecidableEq, Repr

/-- Exactly one locator per registry entry, as built by make_service_data:
either a service_reference (a CommunicationPort, identified by an id) or a
service_tcp_port entry (which holds None when neither argument was given). -/
inductive ServiceLocator where
  | reference (pid : Nat)
  | tcpPort (addr : Option String)
deriving DecidableEq, Repr

structure ServiceData where
  service_type : ServiceType
  locator : ServiceLocator
  service_id : Option Nat
deriving DecidableEq, Repr

/-- Embeds DiscoveryServer.make_service_data (discovery.py lines 77-109).
service_type is an enum member and hence always truthy, so its ValueError
branch is unreachable and not modelled; supplying both locators raises
ValueError; `if service_id:` keeps the id only when truthy (a Python id of 0
is dropped). -/
def make_service_data (service_type : ServiceType) (service_reference : Option Nat)
    (service_tcp_port : Option String) (service_id : Option Nat) :
    Except PyErr ServiceData :=
  if service_tcp_port.isSome && service_reference.isSome then
    Except.error (PyErr.valueError
      "do not use service_tcp_port and service_reference at the same time")
  else
    Except.ok
      { service_type := service_type
        locator :=
          match service_reference with
          | some p => ServiceLocator.reference p
          | none => ServiceLocator.tcpPort service_tcp_port
        service_id :=
          match service_id with
          | some i => if i = 0 then none else some i
          | none => none }

/-- A discovery request mapping; none models a mapping lacking the
service_type key. -/
structure DiscoveryRequest where
  service_type : Option ServiceType
deriving DecidableEq, Repr

inductive DiscoveryReply where
  | errorReply (e : DiscoveryError)
  | entryReply (d : ServiceData)
deriving DecidableEq, Repr

/-- Embeds DiscoveryServer.receive (discovery.py lines 129-147).  The replies
issued through respond_function are collected in order.  pydash.find returns
the first registry entry whose service_type equals the requested one; a found
entry is a nonempty mapping and hence truthy, so `if not res` is exactly the
not-found case. -/
def DiscoveryServer.receive (registry : List ServiceData) (data : DiscoveryRequest) :
    List DiscoveryReply :=
  match data.service_type with
  | none => [DiscoveryReply.errorReply DiscoveryError.MISSING_KEY_IN_REQUEST]
  | some t =>
    match registry.find? (fun e => e.service_type == t) with
    | none => [DiscoveryReply.errorReply DiscoveryError.SERVICE_UNKNOWN]
    | some res => [DiscoveryReply.entryReply res]

/-- Embeds the Python expression CommunicationMode.NAME: enum attribute lookup,
failing (AttributeError) when no member has that name.  The members are those
of communication_port.py lines 28-32. -/
def CommunicationMode.getattr : String → Option CommunicationMode
  | "FUNCTION_CALL_SEND" => some CommunicationMode.FUNCTION_CALL_SEND
  | "FUNCTION_CALL_RECV" => some CommunicationMode.FUNCTION_CALL_RECV
  | "TCP_SEND" => some CommunicationMode.TCP_SEND
  | "TCP_RECV" => some CommunicationMode.TCP_RECV
  | _ => none

/-- Embeds the reply-interpretation tail of DiscoveryDelegate.connect_to_service
(discovery.py lines 198-217).  The keys checked in _resdata are
service_reference, then tcp_port (not service_tcp_port, the key the server
wire shape carries), then error.  The branches evaluate
CommunicationMode.FUNCTION_CALL and CommunicationMode.TCP, which are not
members of the enum; in the error branch resport stays None and the
subsequent `resport.receive_callback = ...` dereferences None. -/
structure ResData where
  service_reference : Option Nat
  tcp_port : Option String
  service_tcp_port : Option String
  error : Option DiscoveryError
deriving DecidableEq, Repr

def interpret_reply (resdata : ResData) : Except PyErr PortState :=
  if resdata.service_reference.isSome then
    match CommunicationMode.getattr "FUNCTION_CALL" with
    | none => Except.error (PyErr.attributeError "FUNCTION_CALL")
    | some m => Except.ok (mkPort m)
  else if resdata.tcp_port.isSome then
    match CommunicationMode.getattr "TCP" with
    | none => Except.error (PyErr.attributeError "TCP")
    | some m => Except.ok (mkPort m)
  else if resdata.error.isSome then
    Except.error (PyErr.attributeError
      "NoneType object has no attribute receive_callback")
  else
    Except.error (PyErr.valueError "discovery service answer not not make any sens")

/-- Embeds DiscoveryDelegate.connect_to_service (discovery.py lines 164-217).
Its first statement already evaluates CommunicationMode.FUNCTION_CALL (when
discovery_port_target is a CommunicationPort reference) or CommunicationMode.TCP
(otherwise); neither is a member of the enum, so the lookup raises
AttributeError before any request is sent.  The unreachable remainder
(construct the port, send the request, poll, then interpret_reply) is only
entered when the lookup succeeds. -/
def connect_to_service (discovery_target_is_port_ref : Bool)
    (resdata : ResData) : Except PyErr PortState :=
  let wanted := if discovery_target_is_port_ref then "FUNCTION_CALL" else "TCP"
  match CommunicationMode.getattr wanted with
  | none => Except.error (PyErr.attributeError wanted)
  | some _ => interpret_reply resdata

/-! ### Service (service.py) -/

inductive ServiceMode where
  | ASYNC
  | SYNC
deriving DecidableEq, Repr

structure Service where
  service_mode : ServiceMode
  event_queue : Option (List AbstractEvent)
deriving Repr

/-- Embeds ServiceInterface.is_async (service_interface.py lines 52-55). -/
def Service.is_async (s : Service) : Bool :=
  s.service_mode == ServiceMode.ASYNC

/-- Embeds Service.__init__ (service.py lines 37-57): the event queue exists
exactly in ASYNC mode. -/
def serviceInit (mode : ServiceMode) : Service :=
  { service_mode := mode
    event_queue := if mode == ServiceMode.ASYNC then some [] else none }

/-- Embeds Service.start (service.py lines 60-67): a bare RuntimeError when
not in ASYNC mode, otherwise the worker thread is started. -/
def Service.start (s : Service) : Except PyErr Unit :=
  if !(s.is_async) then Except.error (PyErr.runtimeError "") else Except.ok ()

inductive AddEventResult where
  | pushed (s : Service)
  | processed (e : AbstractEvent)
deriving Repr

/-- Embeds Service.add_event (service.py lines 69-81): ASYNC pushes onto the
owned queue and returns; SYNC hands the event inline to process_event (the
abstract subclass hook that executes it), with no check of the cancelled
flag. -/
def Service.add_event (s : Service) (event : AbstractEvent) :
    Except PyErr AddEventResult :=
  if s.is_async then
    match s.event_queue with
    | some q => Except.ok (AddEventResult.pushed
        { s with event_queue := some (PriorityQueue.push q event) })
    | none => Except.error (PyErr.attributeError "NoneType object has no attribute push")
  else
    Except.ok (AddEventResult.processed event)

/-- Embeds Service.cancel (service.py lines 83-99): delegates to
self._event_queue.cancel; on a SYNC service _event_queue is None and the
attribute access raises AttributeError. -/
def Service.cancel (s : Service) (key : AbstractEvent → Bool) :
    Except PyErr (List AbstractEvent × Service) :=
  match s.event_queue with
  | none => Except.error (PyErr.attributeError "NoneType object has no attribute cancel")
  | some q =>
    Except.ok ((PriorityQueue.cancel q key).1,
      { s with event_queue := some (PriorityQueue.cancel q key).2 })

/-- Embeds Service.contains (service.py lines 101-119). -/
def Service.contains (s : Service) (key : AbstractEvent → Bool) :
    Except PyErr Bool :=
  match s.event_queue with
  | none => Except.error (PyErr.attributeError "NoneType object has no attribute contains")
  | some q => Except.ok (PriorityQueue.contains q key)

/-- Embeds Service.get (service.py lines 121-143). -/
def Service.get (s : Service) (key : AbstractEvent → Bool) :
    Except PyErr (List AbstractEvent) :=
  match s.event_queue with
  | none => Except.error (PyErr.attributeError "NoneType object has no attribute get")
  | some q => Except.ok (PriorityQueue.get q key)

/-- Embeds the asynchronous worker loop, DummyService.run_with_exception
(test_service.py lines 30-38): repeatedly pop from the owned queue and hand
the event to process_event (which calls event.execute); an IndexError (pop
returning nothing) sleeps and retries.  fuel bounds the number of iterations
examined; the returned list holds the events executed, in order. -/
def workerLoop : Nat → List AbstractEvent → List AbstractEvent
  | 0, _ => []
  | fuel + 1, q =>
    match PriorityQueue.pop q with
    | none => workerLoop fuel []
    | some (e, q2) => e :: workerLoop fuel q2

/-! ### Claim theorems

Concrete events and operation sequences used in counterexamples and
witnesses. -/

def evThree : AbstractEvent := ⟨3, 1, false⟩
def evFour : AbstractEvent := ⟨4, 2, false⟩
def evFive : AbstractEvent := ⟨5, 0, false⟩

/-- A pop is followed by a push of an earlier event, then a second pop. -/
def interleavedOps : List QOp :=
  [QOp.pushOp evFive, QOp.popOp, QOp.pushOp evThree, QOp.popOp]

/-- Three pushes, one cancel, then only pops. -/
def phasedOps : List QOp :=
  [QOp.pushOp evFive, QOp.pushOp evThree, QOp.pushOp evFour,
   QOp.cancelOp (fun e => e.date_time == 4), QOp.popOp, QOp.popOp, QOp.popOp]

/-- C1 counterexample: over the sequence push 5, pop, push 3, pop the queue
returns the never-cancelled events 5 then 3, which is not non-decreasing
date_time order, so the ordering part of C1 fails for sequences that push
after a pop. -/
theorem C1_counterexample :
    (runOps interleavedOps).popped = [evFive, evThree] ∧
    (∀ e ∈ (runOps interleavedOps).popped, e.cancelled = false) ∧
    ¬ ((runOps interleavedOps).popped.map (fun e => e.date_time)).Sorted (· ≤ ·) := by
  have h : runOps interleavedOps = ⟨[], [evFive, evThree]⟩ := by
    simp [runOps, runFrom, interleavedOps, PriorityQueue.push, heappush, siftdown,
      PriorityQueue.pop, heappop, evFive, evThree]
  refine ⟨by rw [h], ?_, ?_⟩
  · rw [h]
    decide
  · rw [h]
    decide

/-- C1 (amended): over every sequence of push, cancel and pop operations,
pop never returns an event whose cancelled flag is set, and pop fails with the
Empty condition (IndexError) exactly when no non-cancelled event remains,
discarding the cancelled events it popped on the way; the events returned come
out in non-decreasing date_time order provided every push precedes every pop
(the original claim asserted this order for arbitrary interleavings). -/
theorem C1_pop_contract (ops : List QOp) :
    (∀ e ∈ (runOps ops).popped, e.cancelled = false) ∧
    (PriorityQueue.pop (runOps ops).state = none ↔
      ∀ x ∈ (runOps ops).state, x.cancelled = true) ∧
    (noPushAfterPop ops = true →
      ((runOps ops).popped.map (fun e => e.date_time)).Sorted (· ≤ ·)) :=
  ⟨runFrom_popped_not_cancelled ops [],
   pop_none_iff _,
   fun h => runFrom_noPush_sorted ops [] isHeap_nil h⟩

/-- C1 witness: on the concrete phase-separated sequence phasedOps the popped
events are sorted by date_time and the final pop fails, every event left being
cancelled. -/
theorem C1_pop_contract_witness :
    ((runOps phasedOps).popped.map (fun e => e.date_time)).Sorted (· ≤ ·) ∧
    PriorityQueue.pop (runOps phasedOps).state = none := by
  have hstate : (runOps phasedOps).state = [] := by
    simp [runOps, runFrom, phasedOps, PriorityQueue.push, heappush, siftdown,
      PriorityQueue.pop, heappop, siftup, siftupChild, PriorityQueue.cancel,
      AbstractEvent.cancel, evFive, evThree, evFour, eventLt, evAt]
  refine ⟨(C1_pop_contract phasedOps).2.2 (by decide), ?_⟩
  refine (C1_pop_contract phasedOps).2.1.mpr ?_
  rw [hstate]
  intro x hx
  simp at hx

/-- C7 counterexample: on a queue holding one event of date_time 1, cancelling
with the always-true predicate twice returns the (already cancelled) event
again on the second call, not an empty list. -/
theorem C7_counterexample :
    (PriorityQueue.cancel
      (PriorityQueue.cancel [⟨1, 0, false⟩] (fun _ => true)).2 (fun _ => true)).1
      = [⟨1, 0, true⟩] ∧
    (PriorityQueue.cancel
      (PriorityQueue.cancel [⟨1, 0, false⟩] (fun _ => true)).2 (fun _ => true)).1 ≠ [] := by
  constructor
  · rfl
  · intro h
    cases h

/-- C7 (amended): cancel is idempotent on the queue state: a second call with
the same predicate cancels no new events (the state is unchanged and every
event the second call returns is already cancelled); but the second call
returns the matching events again (the cancelled matches of the predicate),
not an empty set. -/
theorem C7_cancel_idempotent (pq : List AbstractEvent) (k : AbstractEvent → Bool) :
    (PriorityQueue.cancel (PriorityQueue.cancel pq k).2 k).2
      = (PriorityQueue.cancel pq k).2 ∧
    (∀ e ∈ (PriorityQueue.cancel (PriorityQueue.cancel pq k).2 k).1,
      e.cancelled = true) ∧
    (PriorityQueue.cancel (PriorityQueue.cancel pq k).2 k).1
      = (((PriorityQueue.cancel pq k).2).filter k).map AbstractEvent.cancel := by
  refine ⟨?_, ?_, cancel_fst _ k⟩
  · rw [cancel_snd, cancel_snd, List.map_map]
    refine List.map_congr_left ?_
    intro e _
    simp only [Function.comp]
    by_cases hk : k e
    · simp only [hk, if_true]
      have : k e.cancel = true ∨ k e.cancel = false := by
        cases k e.cancel
        · exact Or.inr rfl
        · exact Or.inl rfl
      rcases this with h2 | h2 <;> simp [h2, AbstractEvent.cancel]
    · simp [hk]
  · intro e he
    rw [cancel_fst] at he
    obtain ⟨y, _, rfl⟩ := List.mem_map.mp he
    rfl

/-- C8 counterexample: a synchronous Service hands an already-cancelled event
straight to process_event (which executes it); the synchronous inline dispatch
path does not check the cancelled flag. -/
theorem C8_counterexample :
    Service.add_event (serviceInit ServiceMode.SYNC) ⟨0, 0, true⟩
      = Except.ok (AddEventResult.processed ⟨0, 0, true⟩) ∧
    (⟨0, 0, true⟩ : AbstractEvent).cancelled = true := by
  exact ⟨rfl, rfl⟩

/-- C8 (amended): once cancelled an event is never returned by
PriorityQueue.pop and hence never executed by the asynchronous worker loop,
and cancellation is idempotent; the synchronous inline path of add_event,
however, dispatches without consulting the cancelled flag. -/
theorem C8_cancelled_never_executed (fuel : Nat) (q pq rest : List AbstractEvent)
    (e : AbstractEvent) (hpop : PriorityQueue.pop pq = some (e, rest)) :
    (∀ x ∈ workerLoop fuel q, x.cancelled = false) ∧
    e.cancelled = false ∧
    (∀ x : AbstractEvent, x.cancel.cancel = x.cancel ∧ x.cancel.cancelled = true) := by
  refine ⟨?_, pop_not_cancelled hpop, fun x => ⟨rfl, rfl⟩⟩
  clear hpop
  induction fuel generalizing q with
  | zero => intro x hx; simp [workerLoop] at hx
  | succ n ih =>
    intro x hx
    rw [workerLoop] at hx
    split at hx
    · exact ih [] x hx
    · rename_i e0 q2 hp
      simp only [List.mem_cons] at hx
      rcases hx with rfl | hx2
      · exact pop_not_cancelled hp
      · exact ih q2 x hx2

/-- C8 witness: a concrete pop from the one-event queue returns the event with
its cancelled flag unset, and the worker loop over a queue holding one
cancelled and one live event executes no cancelled event. -/
theorem C8_cancelled_never_executed_witness :
    (∀ x ∈ workerLoop 3 [⟨1, 0, true⟩], x.cancelled = false) ∧
    (evThree.cancelled = false) := by
  have hpop : PriorityQueue.pop [evThree] = some (evThree, []) := by
    rw [PriorityQueue.pop]
    simp [heappop, evThree]
  exact ⟨(C8_cancelled_never_executed 3 [⟨1, 0, true⟩] [evThree] [] evThree hpop).1,
    (C8_cancelled_never_executed 3 [⟨1, 0, true⟩] [evThree] [] evThree hpop).2.1⟩

/-- The failure mode the C9 claim asserts: the call fails with an error that is
not the AttributeError produced by dereferencing the absent (None) queue. -/
def failsWithoutNoneDeref {β : Type} (r : Except PyErr β) : Prop :=
  ∃ err, r = Except.error err ∧ ∀ m, err ≠ PyErr.attributeError m

/-- C9 counterexample: cancel on a synchronous service fails precisely by
dereferencing the absent queue (an AttributeError on None), contradicting the
claim that it fails clearly rather than dereferencing the absent queue. -/
theorem C9_counterexample :
    ¬ failsWithoutNoneDeref
      (Service.cancel (serviceInit ServiceMode.SYNC) (fun _ => true)) := by
  rintro ⟨err, heq, hne⟩
  have : Service.cancel (serviceInit ServiceMode.SYNC) (fun _ => true)
      = Except.error (PyErr.attributeError "NoneType object has no attribute cancel") :=
    rfl
  rw [this] at heq
  cases heq
  exact hne _ rfl

/-- C9 (amended): start on a synchronous service fails with the
InvalidOperation condition (a bare RuntimeError), and cancel, contains and get
on a synchronous service fail at the call site by dereferencing the absent
queue, raising AttributeError on None rather than performing an explicit mode
check. -/
theorem C9_sync_service_failures (k : AbstractEvent → Bool) :
    Service.start (serviceInit ServiceMode.SYNC)
      = Except.error (PyErr.runtimeError "") ∧
    Service.cancel (serviceInit ServiceMode.SYNC) k
      = Except.error (PyErr.attributeError "NoneType object has no attribute cancel") ∧
    Service.contains (serviceInit ServiceMode.SYNC) k
      = Except.error (PyErr.attributeError "NoneType object has no attribute contains") ∧
    Service.get (serviceInit ServiceMode.SYNC) k
      = Except.error (PyErr.attributeError "NoneType object has no attribute get") :=
  ⟨rfl, rfl, rfl, rfl⟩

/-- C10: two events compare equal exactly when their date_time values are
equal and compare less-than exactly on date_time order; in particular two
events agreeing on date_time compare equal whatever their other state
(identity eid, cancelled flag). -/
theorem C10_event_comparisons (a b : AbstractEvent) :
    (eventEq a b = true ↔ a.date_time = b.date_time) ∧
    (eventLt a b = true ↔ a.date_time < b.date_time) ∧
    (∀ (d : Int) (i1 i2 : Nat) (c1 c2 : Bool),
      eventEq ⟨d, i1, c1⟩ ⟨d, i2, c2⟩ = true) := by
  refine ⟨?_, eventLt_true, ?_⟩
  · simp [eventEq]
  · intro d i1 i2 c1 c2
    simp [eventEq]

/-- Observations of the two callbacks in a local round trip: which port
callback observed which payload, in invocation order. -/
inductive Obs (α : Type) where
  | atB (data : α)
  | atA (data : α)
deriving Repr

/-- C2: in a local round trip, A.send delivers exactly the sent payload to the
registered receive callback of B together with a reply function, and when B
replies through it with g p, the receive callback of A observes exactly g p,
all before send returns (the observation list is the value computed inside
send). -/
theorem C2_local_round_trip {α : Type} (p : α) (g : α → α) :
    CommunicationPort.send
      (setTargetPort (mkPort CommunicationMode.FUNCTION_CALL_SEND) (PortTarget.portRef 1))
      "port_a"
      (CommunicationPort.receive CommunicationMode.FUNCTION_CALL_RECV
        (fun d r => Obs.atB d ::
          (match r with
           | some reply => reply (g d)
           | none => [])) [])
      (CommunicationPort.receive CommunicationMode.FUNCTION_CALL_SEND
        (fun d _ => [Obs.atA d]) [])
      p
    = Except.ok (SendResult.localDelivered [Obs.atB p, Obs.atA (g p)]) := rfl

/-- C3 counterexample: a worker body raising NotImplementedError is not
captured: the exception escapes inside the worker thread itself (run
re-raises it), and a subsequent join re-raises nothing. -/
theorem C3_counterexample :
    (ExceptionThread.run (RunOutcome.raised ⟨"NotImplementedError", "boom", true⟩)).exc
      = none ∧
    (ExceptionThread.run (RunOutcome.raised ⟨"NotImplementedError", "boom", true⟩)).escaped
      = some ⟨"NotImplementedError", "boom", true⟩ ∧
    ExceptionThread.join "ServiceThread"
      (ExceptionThread.run (RunOutcome.raised ⟨"NotImplementedError", "boom", true⟩))
      = none :=
  ⟨rfl, rfl, rfl⟩

/-- C3 (amended): every unhandled failure of the worker body other than
NotImplementedError is captured where it occurs (nothing escapes the worker
thread, and run itself raises nothing), and a later join re-raises a failure
whose message references the original condition; a NotImplementedError instead
escapes inside the worker during run and is not re-raised at join. -/
theorem C3_join_reraises (e : PyExc) (name : String)
    (h : e.cls ≠ "NotImplementedError") :
    (ExceptionThread.run (RunOutcome.raised e)).exc = some e ∧
    (ExceptionThread.run (RunOutcome.raised e)).escaped = none ∧
    (∃ e2, ExceptionThread.join name (ExceptionThread.run (RunOutcome.raised e))
        = some e2 ∧
      e2.msg = "Thread " ++ name ++ " threw an exception: " ++ e.msg) := by
  have hb : (e.cls == "NotImplementedError") = false := by
    simp only [beq_eq_false_iff_ne, ne_eq]
    exact h
  have hrun : ExceptionThread.run (RunOutcome.raised e) = ⟨some e, none⟩ := by
    simp [ExceptionThread.run, hb]
  rw [hrun]
  refine ⟨rfl, rfl, ?_⟩
  unfold ExceptionThread.join
  cases hctor : e.ctorAcceptsMsg
  · refine ⟨⟨"RuntimeError", "Thread " ++ name ++ " threw an exception: " ++ e.msg, true⟩,
      ?_, rfl⟩
    simp [hctor]
  · refine ⟨⟨e.cls, "Thread " ++ name ++ " threw an exception: " ++ e.msg, true⟩,
      ?_, rfl⟩
    simp [hctor]

/-- C3 witness: a ValueError raised in the worker body is stored by run,
escapes nowhere, and join re-raises a failure whose message embeds the
original message. -/
theorem C3_join_reraises_witness :
    (ExceptionThread.run (RunOutcome.raised ⟨"ValueError", "boom", true⟩)).exc
      = some ⟨"ValueError", "boom", true⟩ ∧
    (ExceptionThread.run (RunOutcome.raised ⟨"ValueError", "boom", true⟩)).escaped
      = none ∧
    (∃ e2, ExceptionThread.join "ServiceThread"
        (ExceptionThread.run (RunOutcome.raised ⟨"ValueError", "boom", true⟩))
        = some e2 ∧
      e2.msg = "Thread " ++ "ServiceThread" ++ " threw an exception: " ++ "boom") :=
  C3_join_reraises ⟨"ValueError", "boom", true⟩ "ServiceThread" (by decide)

/-- C4: DiscoveryServer.receive issues exactly one reply per request; a request
lacking the service-type key is answered with the MissingKey error, a request
whose type matches no registry entry with the ServiceUnknown error, and
otherwise with the first matching registry entry itself (locator and optional
service id included); negative outcomes are returned as data. -/
theorem C4_discovery_server_receive (registry : List ServiceData)
    (req : DiscoveryRequest) :
    (DiscoveryServer.receive registry req).length = 1 ∧
    (req.service_type = none →
      DiscoveryServer.receive registry req
        = [DiscoveryReply.errorReply DiscoveryError.MISSING_KEY_IN_REQUEST]) ∧
    (∀ t, req.service_type = some t →
      ((∀ e ∈ registry, ¬ e.service_type = t) →
        DiscoveryServer.receive registry req
          = [DiscoveryReply.errorReply DiscoveryError.SERVICE_UNKNOWN]) ∧
      (∀ res, registry.find? (fun e => e.service_type == t) = some res →
        DiscoveryServer.receive registry req = [DiscoveryReply.entryReply res])) := by
  refine ⟨?_, ?_, ?_⟩
  · unfold DiscoveryServer.receive
    cases req.service_type with
    | none => rfl
    | some t =>
      cases hf : registry.find? (fun e => e.service_type == t) <;> simp [hf]
  · intro h
    simp [DiscoveryServer.receive, h]
  · intro t ht
    constructor
    · intro hnone
      have hfind : registry.find? (fun e => e.service_type == t) = none := by
        rw [List.find?_eq_none]
        intro x hx
        simpa using hnone x hx
      simp [DiscoveryServer.receive, ht, hfind]
    · intro res hres
      simp [DiscoveryServer.receive, ht, hres]

/-- The registry of the discovery tests: a transport entry and a local
allocator reference. -/
def tcpEntry : ServiceData :=
  ⟨ServiceType.SCHEDULER, ServiceLocator.tcpPort (some "tcp://localhost:8888"), none⟩

def allocEntry : ServiceData :=
  ⟨ServiceType.ALLOCATOR, ServiceLocator.reference 2, none⟩

/-- C4 witness: on the concrete registry, an ALLOCATOR request is answered with
the allocator entry, a CLIENT request with ServiceUnknown, and a request
lacking the key with MissingKey. -/
theorem C4_discovery_server_receive_witness :
    DiscoveryServer.receive [tcpEntry, allocEntry] ⟨some ServiceType.ALLOCATOR⟩
      = [DiscoveryReply.entryReply allocEntry] ∧
    DiscoveryServer.receive [tcpEntry, allocEntry] ⟨some ServiceType.CLIENT⟩
      = [DiscoveryReply.errorReply DiscoveryError.SERVICE_UNKNOWN] ∧
    DiscoveryServer.receive [tcpEntry, allocEntry] ⟨none⟩
      = [DiscoveryReply.errorReply DiscoveryError.MISSING_KEY_IN_REQUEST] :=
  ⟨((C4_discovery_server_receive [tcpEntry, allocEntry] ⟨some ServiceType.ALLOCATOR⟩).2.2
      ServiceType.ALLOCATOR rfl).2 allocEntry (by decide),
   ((C4_discovery_server_receive [tcpEntry, allocEntry] ⟨some ServiceType.CLIENT⟩).2.2
      ServiceType.CLIENT rfl).1 (by decide),
   (C4_discovery_server_receive [tcpEntry, allocEntry] ⟨none⟩).2.1 rfl⟩

/-- C5: DiscoveryDelegate.connect_to_service can never produce a usable port:
its first statement evaluates CommunicationMode.FUNCTION_CALL or
CommunicationMode.TCP, neither of which is a member of the enum, raising
AttributeError for every input; and even the reply-interpretation tail on its
own fails on every reply shape (nonexistent enum members again for the
locator branches, a None dereference for the error branch, ValueError
otherwise). -/
theorem C5_connect_to_service_always_fails (isRef : Bool) (resdata : ResData) :
    connect_to_service isRef resdata
      = Except.error (PyErr.attributeError (if isRef then "FUNCTION_CALL" else "TCP")) ∧
    (∃ err, interpret_reply resdata = Except.error err) := by
  constructor
  · cases isRef <;> rfl
  · unfold interpret_reply
    split
    · exact ⟨_, rfl⟩
    · split
      · exact ⟨_, rfl⟩
      · split
        · exact ⟨_, rfl⟩
        · exact ⟨_, rfl⟩

/-- The readiness notion asserted by the C6 claim (from the spec): the target
is set, and a network-send port additionally has its transport established. -/
def readySpecC6 (s : PortState) : Prop :=
  (s.mode = CommunicationMode.FUNCTION_CALL_SEND ∧
    ∃ pid, s.target_port = some (PortTarget.portRef pid)) ∨
  (s.mode = CommunicationMode.TCP_SEND ∧ s.target_port ≠ none ∧ s.listening = true)

/-- C6 counterexample: a freshly constructed network-send port whose target was
never set is not ready in the sense of the claim, yet is_ready answers true
(the constructor already created the socket and set _listening) and send does
not raise NotReady: it transmits. -/
theorem C6_counterexample :
    ¬ readySpecC6 (mkPort CommunicationMode.TCP_SEND) ∧
    is_ready (mkPort CommunicationMode.TCP_SEND) = true ∧
    CommunicationPort.send (α := Unit) (ω := Unit)
      (mkPort CommunicationMode.TCP_SEND) "port_a"
      (fun _ _ => ()) (fun _ _ => ()) ()
      = Except.ok (SendResult.tcpSent ()) := by
  refine ⟨?_, rfl, rfl⟩
  rintro (⟨hm, _⟩ | ⟨_, htgt, _⟩)
  · simp [mkPort] at hm
  · exact htgt rfl

/-- C6 (amended): for every constructed port, with or without a target set,
send raises the NotReady failure exactly when is_ready is false, and is_ready
holds exactly when the port is a local-send port whose target is a port
reference, or a network-send port (which is ready from construction on,
whether or not a target was ever set). -/
theorem C6_send_not_ready_iff {α ω : Type}
    (targetReceive selfReceive : α → Option (α → ω) → ω) (data : α) (name : String)
    (mode : CommunicationMode) (t : Option PortTarget) :
    ((∃ msg, CommunicationPort.send
        (match t with
         | none => mkPort mode
         | some tgt => setTargetPort (mkPort mode) tgt)
        name targetReceive selfReceive data
        = Except.error (PyErr.runtimeError msg)) ↔
      is_ready
        (match t with
         | none => mkPort mode
         | some tgt => setTargetPort (mkPort mode) tgt) = false) ∧
    (is_ready
        (match t with
         | none => mkPort mode
         | some tgt => setTargetPort (mkPort mode) tgt) = true ↔
      ((mode = CommunicationMode.FUNCTION_CALL_SEND ∧
          ∃ pid, t = some (PortTarget.portRef pid)) ∨
        mode = CommunicationMode.TCP_SEND)) := by
  rcases t with _ | tgt
  · cases mode <;>
      simp [mkPort, is_ready, CommunicationPort.send]
  · rcases tgt with pid | addr <;> cases mode <;>
      simp [mkPort, setTargetPort, is_ready, CommunicationPort.send]

end Simulec
